import Mathlib

/-!
Pathie `entry_iterator` (src/entry_iterator.cpp)

A shallow embedding of the directory entry iterator of Pathie, Unix branch
(`_PATHIE_UNIX`: `opendir` / `readdir` / `closedir`).  The `_WIN32` branch of
`open_native_handle` names `m_path` and `findhandle`, which the class does not
declare, and is not modelled.

* Pointers are `Option`s: `none` is `NULL`.  `mp_directory` is an address into
  caller-owned memory, `mp_cur` is the native `DIR*` handle, `mp_cur_path`
  is the heap slot allocated by `new Path()` (or `NULL`).
* The operating system is an explicit `World`: the table of open directory
  streams, `errno`, and a log of the native open/close calls.
* An operation returns normally, throws (the state at the throw is kept, the
  caller may catch and go on), or dereferences a null pointer (`undefined`).
-/

namespace Pathie

/-! ## Collaborators declared in path.hpp / errors.hpp -/

/-- Interface of the `Path` class used by the iterator: the type of path values,
the value built by the default constructor `Path()`, the accessor `native()`
and the helper `filename_to_utf8`. -/
structure PathLib where
  /-- Type of the path values. -/
  Path : Type
  /-- Value of `Path()`. -/
  Path_default : Path
  /-- Accessor `Path::native()`. -/
  native : Path → String
  /-- Helper `filename_to_utf8`, applied to `d_name`. -/
  filename_to_utf8 : String → Path

/-- Exceptions thrown by the iterator. -/
inductive Thrown where
  | ErrnoError (code : Nat)
  | range_error (what : String)
  deriving DecidableEq, Repr

/-- Outcome of one member function call on a state `σ`. -/
inductive Result (σ : Type) where
  /-- Normal return. -/
  | returned (s : σ)
  /-- An exception left the function; `s` is the state at the `throw`. -/
  | threw (e : Thrown) (s : σ)
  /-- A null pointer was dereferenced. -/
  | undefined

/-- State the caller goes on with: after a normal return, or after catching
the exception. -/
def Result.after {σ : Type} : Result σ → Option σ
  | .returned s => some s
  | .threw _ s => some s
  | .undefined => none

/-- Sequencing of calls that stops at the first exception. -/
def Result.andThen {σ : Type} (r : Result σ) (f : σ → Result σ) : Result σ :=
  match r with
  | .returned s => f s
  | .threw e s => .threw e s
  | .undefined => .undefined

/-! ## The operating system -/

/-- Native calls that change the set of open directory streams. -/
inductive Event where
  /-- Successful `opendir` returning `h`. -/
  | opened (h : Nat)
  /-- Call `closedir(h)` on an open stream. -/
  | closed (h : Nat)
  /-- Call `closedir(h)` on a handle that is not open. -/
  | closedStale (h : Nat)
  deriving DecidableEq, Repr

/-- Value of `EBADF`. -/
def EBADF : Nat := 9

/-- Table of open directory streams: handle and the names not yet read. -/
abbrev Streams := List (Nat × List String)

/-- The world the iterator runs in. -/
structure World (L : PathLib) where
  /-- Caller-owned `Path` objects, by address. -/
  mem : Nat → L.Path
  /-- What `opendir` finds for a native path: an error code, or the names
  of the directory in native enumeration order. -/
  disk : String → Except Nat (List String)
  /-- Open directory streams. -/
  streams : Streams
  /-- The variable `errno`. -/
  errno : Nat
  /-- Native open/close calls so far, oldest first. -/
  log : List Event

/-- Handles of the open streams. -/
def openHandles (s : Streams) : List Nat := s.map Prod.fst

/-- A handle value distinct from every open handle. -/
def freshHandle (s : Streams) : Nat := (openHandles s).foldr max 0 + 1

/-- Replace the unread names of the first stream with handle `h`. -/
def setStream (h : Nat) (rest : List String) : Streams → Streams
  | [] => []
  | (k, es) :: s => if k = h then (h, rest) :: s else (k, es) :: setStream h rest s

/-- Remove the first stream with handle `h`. -/
def dropStream (h : Nat) : Streams → Streams
  | [] => []
  | (k, es) :: s => if k = h then s else (k, es) :: dropStream h s

/-- Native `opendir`: a fresh handle on success, `NULL` with `errno` set on failure. -/
def opendir {L : PathLib} (w : World L) (name : String) : Option Nat × World L :=
  match w.disk name with
  | .ok entries =>
    let h := freshHandle w.streams
    (some h, { w with streams := (h, entries) :: w.streams, log := w.log ++ [Event.opened h] })
  | .error c => (none, { w with errno := c })

/-- Native `readdir`: the next name of the stream, `NULL` at the end of the
listing (or, with `EBADF`, on a handle that is not open). -/
def readdir {L : PathLib} (w : World L) (h : Nat) : Option String × World L :=
  match w.streams.lookup h with
  | some (e :: rest) => (some e, { w with streams := setStream h rest w.streams })
  | some [] => (none, w)
  | none => (none, { w with errno := EBADF })

/-- Native `closedir`. -/
def closedir {L : PathLib} (w : World L) (h : Nat) : World L :=
  match w.streams.lookup h with
  | some _ => { w with streams := dropStream h w.streams, log := w.log ++ [Event.closed h] }
  | none => { w with errno := EBADF, log := w.log ++ [Event.closedStale h] }

/-! ## The iterator -/

/-- Data members of `entry_iterator`. -/
structure entry_iterator (L : PathLib) where
  /-- Directory being listed (not owned); `NULL` for the terminal iterator. -/
  mp_directory : Option Nat
  /-- Native handle. -/
  mp_cur : Option Nat
  /-- Slot holding the current entry. -/
  mp_cur_path : Option L.Path

/-- An iterator together with the world it lives in. -/
abbrev Config (L : PathLib) := entry_iterator L × World L

/-- Default constructor `entry_iterator()`. -/
def entry_iterator.terminal (L : PathLib) : entry_iterator L :=
  { mp_directory := none, mp_cur := none, mp_cur_path := none }

/-- Member `open_native_handle()`, Unix branch. -/
def open_native_handle {L : PathLib} (c : Config L) : Result (Config L) :=
  match c.1.mp_directory with
  | none => .undefined
  | some d =>
    let nstr := L.native (c.2.mem d)
    let r := opendir c.2 nstr
    let it := { c.1 with mp_cur := r.1 }
    match r.1 with
    | some h =>
      let p_dirent := readdir r.2 h
      match p_dirent.1, it.mp_cur_path with
      | some d_name, some _ =>
        .returned ({ it with mp_cur_path := some (L.filename_to_utf8 d_name) }, p_dirent.2)
      | _, _ => .undefined
    | none => .threw (Thrown.ErrnoError r.2.errno) (it, r.2)

/-- Member `close_native_handle()`, Unix branch. -/
def close_native_handle {L : PathLib} (c : Config L) : Result (Config L) :=
  match c.1.mp_cur with
  | none => .returned c
  | some h =>
    let w := closedir c.2 h
    match c.1.mp_cur_path with
    | some _ => .returned ({ c.1 with mp_cur_path := some L.Path_default, mp_cur := none }, w)
    | none => .undefined

/-- Constructor `entry_iterator(Path* p_directory)`. -/
def entry_iterator.bound {L : PathLib} (w : World L) (p_directory : Option Nat) :
    Result (Config L) :=
  open_native_handle
    ({ mp_directory := p_directory, mp_cur := none, mp_cur_path := some L.Path_default }, w)

/-- Destructor `~entry_iterator()`. -/
def entry_iterator.destroy {L : PathLib} (c : Config L) : Result (Config L) :=
  close_native_handle c

/-- Postfix increment `operator++(int)`, Unix branch. -/
def operator_inc_post {L : PathLib} (c : Config L) : Result (Config L) :=
  match c.1.mp_cur with
  | some h =>
    let p_dirent := readdir c.2 h
    match p_dirent.1 with
    | some d_name =>
      match c.1.mp_cur_path with
      | some _ =>
        .returned ({ c.1 with mp_cur_path := some (L.filename_to_utf8 d_name) }, p_dirent.2)
      | none => .undefined
    | none => close_native_handle (c.1, p_dirent.2)
  | none => .threw (Thrown.range_error "Tried to advance a finished entry_iterator!") c

/-- Increment without argument, `operator++()`: its body is the call
`operator++()`.  One unit of fuel is one activation; `none` means that the
call has not returned within the fuel. -/
def operator_inc_pre {L : PathLib} : Nat → Config L → Option (Result (Config L))
  | 0, _ => none
  | fuel + 1, c => operator_inc_pre fuel c

/-- Dereference `operator*()`; `none` when `mp_cur_path` is `NULL`. -/
def operator_deref {L : PathLib} (it : entry_iterator L) : Option L.Path :=
  it.mp_cur_path

/-- Assignment `operator=(Path* p_directory)`. -/
def operator_assign {L : PathLib} (c : Config L) (p_directory : Option Nat) :
    Result (Config L) :=
  match close_native_handle c with
  | .returned c1 => open_native_handle ({ c1.1 with mp_directory := p_directory }, c1.2)
  | .threw e s => .threw e s
  | .undefined => .undefined

/-- Conversion `operator bool()`. -/
def operator_bool {L : PathLib} (it : entry_iterator L) : Bool :=
  it.mp_directory.isSome

/-- Comparison `operator==`. -/
def operator_eq {L : PathLib} (it other : entry_iterator L) : Bool :=
  if other.mp_directory = none then
    it.mp_cur.isSome
  else
    it.mp_directory == other.mp_directory && it.mp_cur == other.mp_cur

/-- Comparison `operator!=`. -/
def operator_ne {L : PathLib} (it other : entry_iterator L) : Bool :=
  !(operator_eq it other)

/-! ## Call sequences -/

/-- Calls a client makes on a live iterator. -/
inductive Op where
  /-- The call `it++`. -/
  | advance
  /-- The call `it = p_directory`. -/
  | rebind (p_directory : Option Nat)

/-- Run one call. -/
def Op.exec {L : PathLib} : Op → Config L → Result (Config L)
  | .advance, c => operator_inc_post c
  | .rebind p, c => operator_assign c p

/-- Outcomes of a sequence of calls on one iterator.  An exception is caught by
the caller, who goes on with the same object; a null dereference ends the run. -/
def outcomes {L : PathLib} : Config L → List Op → List (Result (Config L))
  | _, [] => []
  | c, op :: ops =>
    op.exec c ::
      (match (op.exec c).after with
       | some c1 => outcomes c1 ops
       | none => [])

/-- Configuration after a sequence of calls, `none` if a null pointer was
dereferenced on the way. -/
def runOps {L : PathLib} : Config L → List Op → Option (Config L)
  | c, [] => some c
  | c, op :: ops =>
    match (op.exec c).after with
    | some c1 => runOps c1 ops
    | none => none

/-- Postfix increment applied `k` times, each call returning normally. -/
def advance_times {L : PathLib} : Nat → Config L → Result (Config L)
  | 0, c => .returned c
  | k + 1, c => (advance_times k c).andThen operator_inc_post

/-- Whole life of one iterator: construction on `p_directory`, the calls
`ops`, destruction.  When the constructor throws no object exists: nothing
else runs.  The result is the final world, `none` if a null pointer was
dereferenced. -/
def lifetime {L : PathLib} (w : World L) (p_directory : Option Nat) (ops : List Op) :
    Option (World L) :=
  match entry_iterator.bound w p_directory with
  | .returned c =>
    match runOps c ops with
    | some c1 => (entry_iterator.destroy c1).after.map Prod.snd
    | none => none
  | .threw _ c => some c.2
  | .undefined => none

/-- Handles opened, oldest first. -/
def opens : List Event → List Nat
  | [] => []
  | .opened h :: l => h :: opens l
  | _ :: l => opens l

/-- Handles passed to `closedir` while open, oldest first. -/
def closes : List Event → List Nat
  | [] => []
  | .closed h :: l => h :: closes l
  | _ :: l => closes l

/-- Handles passed to `closedir` while not open. -/
def staleCloses : List Event → List Nat
  | [] => []
  | .closedStale h :: l => h :: staleCloses l
  | _ :: l => staleCloses l

/-! ## Ownership of the native handle -/

/-- The iterator holds what it has opened and not closed: its slot is allocated, its
handle (if any) is the stream on top of those of `w0`, and in the native calls made
since `w0` the handles opened are the handles closed followed by the handle held. -/
def Owns {L : PathLib} (w0 : World L) (c : Config L) : Prop :=
  c.1.mp_cur_path ≠ none ∧
  (match c.1.mp_cur with
   | some h => ∃ rem, c.2.streams = (h, rem) :: w0.streams
   | none => c.2.streams = w0.streams) ∧
  ∃ ev, c.2.log = w0.log ++ ev ∧ staleCloses ev = [] ∧ opens ev = closes ev ++ c.1.mp_cur.toList

/-- Every directory that opens lists at least one name. -/
def ListsSomething {L : PathLib} (w : World L) : Prop :=
  ∀ name es, w.disk name = .ok es → es ≠ []

/-- Outcome of the constructor followed by the outcomes of the calls made on the
constructed object (none when the constructor did not return). -/
def trace {L : PathLib} (w : World L) (p_directory : Option Nat) (ops : List Op) :
    List (Result (Config L)) :=
  entry_iterator.bound w p_directory ::
    (match entry_iterator.bound w p_directory with
     | .returned c => outcomes c ops
     | _ => [])

/-- World in which `operator=` opens the new listing: the handle held, if any,
has been passed to `closedir`. -/
def worldAfterClose {L : PathLib} (it : entry_iterator L) (w : World L) : World L :=
  match it.mp_cur with
  | some h => closedir w h
  | none => w

/-! ## A concrete world: `/tmp/x` holds `.`, `..`, `a.txt` -/

/-- Instance of the interface used in the examples: paths are UTF-8 strings, `Path()`
is the empty path, `native()` and `filename_to_utf8` pass the bytes on unchanged. -/
def utf8Paths : PathLib :=
  { Path := String, Path_default := "", native := fun p => p, filename_to_utf8 := fun s => s }

/-- Value of `ENOENT`. -/
def ENOENT : Nat := 2

/-- World with the path `/tmp/x` at address 1 and `/nonexistent` elsewhere;
no stream is open. -/
def tmp_x : World utf8Paths :=
  { mem := fun a => if a = 1 then "/tmp/x" else "/nonexistent"
    disk := fun s => if s = "/tmp/x" then .ok [".", "..", "a.txt"] else .error ENOENT
    streams := []
    errno := 0
    log := [] }

/-- Iterator freshly constructed on `/tmp/x`, and its world: the slot holds `.`. -/
def bound_tmp_x : Config utf8Paths :=
  ({ mp_directory := some 1, mp_cur := some 1, mp_cur_path := some "." },
   { tmp_x with streams := [(1, ["..", "a.txt"])], log := [Event.opened 1] })

/-- Iterator bound to `/tmp/x` and advanced three times: its listing is exhausted. -/
def exhausted_tmp_x : entry_iterator utf8Paths :=
  { mp_directory := some 1, mp_cur := none, mp_cur_path := some "" }

/-! ## Lemmas -/

theorem exists_of_ne_none {α : Type} {o : Option α} (h : o ≠ none) : ∃ x, o = some x := by
  cases o with
  | none => exact absurd rfl h
  | some x => exact ⟨x, rfl⟩


theorem operator_eq_null_dir {L : PathLib} (it : entry_iterator L) (cur : Option Nat)
    (slot : Option L.Path) :
    operator_eq it { mp_directory := none, mp_cur := cur, mp_cur_path := slot }
      = it.mp_cur.isSome := by
  simp [operator_eq]

theorem inc_post_finished {L : PathLib} (c : Config L) (h : c.1.mp_cur = none) :
    operator_inc_post c
      = .threw (Thrown.range_error "Tried to advance a finished entry_iterator!") c := by
  simp [operator_inc_post, h]

theorem outcomes_finished {L : PathLib} (c : Config L) (h : c.1.mp_cur = none) (n : Nat) :
    outcomes c (List.replicate n Op.advance)
      = List.replicate n
          (.threw (Thrown.range_error "Tried to advance a finished entry_iterator!") c) := by
  induction n with
  | zero => rfl
  | succ n ih =>
    simp [List.replicate_succ, outcomes, Op.exec, inc_post_finished c h, Result.after, ih]

theorem closedir_disk {L : PathLib} (w : World L) (h : Nat) : (closedir w h).disk = w.disk := by
  unfold closedir; split <;> rfl

theorem closedir_mem {L : PathLib} (w : World L) (h : Nat) : (closedir w h).mem = w.mem := by
  unfold closedir; split <;> rfl

theorem open_fails {L : PathLib} (it : entry_iterator L) (w : World L) (d c : Nat)
    (hd : it.mp_directory = some d)
    (hfail : w.disk (L.native (w.mem d)) = .error c) :
    open_native_handle (it, w)
      = .threw (Thrown.ErrnoError c) ({ it with mp_cur := none }, { w with errno := c }) := by
  simp [open_native_handle, hd, opendir, hfail]

theorem open_succeeds {L : PathLib} (it : entry_iterator L) (w : World L) (d : Nat)
    (x : L.Path) (f1 : String) (rest : List String)
    (hd : it.mp_directory = some d) (hslot : it.mp_cur_path = some x)
    (hopen : w.disk (L.native (w.mem d)) = .ok (f1 :: rest)) :
    open_native_handle (it, w)
      = .returned
          ({ mp_directory := some d, mp_cur := some (freshHandle w.streams),
             mp_cur_path := some (L.filename_to_utf8 f1) },
           { w with streams := (freshHandle w.streams, rest) :: w.streams,
                    log := w.log ++ [Event.opened (freshHandle w.streams)] }) := by
  simp [open_native_handle, hd, hslot, opendir, hopen, readdir, setStream]

theorem open_dir {L : PathLib} (c c1 : Config L) (h : (open_native_handle c).after = some c1) :
    c1.1.mp_directory = c.1.mp_directory ∧ c.1.mp_directory ≠ none := by
  unfold open_native_handle at h
  split at h
  · simp [Result.after] at h
  · rename_i d hd
    simp only at h
    split at h
    · split at h
      · simp [Result.after] at h
        subst h
        simp [hd]
      · simp [Result.after] at h
    · simp [Result.after] at h
      subst h
      simp [hd]

theorem close_dir {L : PathLib} (c c1 : Config L) (h : (close_native_handle c).after = some c1) :
    c1.1.mp_directory = c.1.mp_directory := by
  unfold close_native_handle at h
  split at h
  · simp [Result.after] at h; subst h; rfl
  · simp only at h
    split at h
    · simp [Result.after] at h; subst h; rfl
    · simp [Result.after] at h

theorem inc_post_dir {L : PathLib} (c c1 : Config L) (h : (operator_inc_post c).after = some c1) :
    c1.1.mp_directory = c.1.mp_directory := by
  unfold operator_inc_post at h
  split at h
  · simp only at h
    split at h
    · split at h
      · simp [Result.after] at h; subst h; rfl
      · simp [Result.after] at h
    · have hc := close_dir (c.1, _) c1 h
      simpa using hc
  · simp [Result.after] at h; subst h; rfl


theorem inc_post_next {L : PathLib} (it : entry_iterator L) (w : World L) (h : Nat)
    (x : L.Path) (e : String) (rest : List String) (s0 : Streams)
    (hcur : it.mp_cur = some h) (hslot : it.mp_cur_path = some x)
    (hs : w.streams = (h, e :: rest) :: s0) :
    operator_inc_post (it, w)
      = .returned ({ it with mp_cur_path := some (L.filename_to_utf8 e) },
                   { w with streams := (h, rest) :: s0 }) := by
  simp [operator_inc_post, hcur, hslot, readdir, hs, setStream]

theorem inc_post_last {L : PathLib} (it : entry_iterator L) (w : World L) (h : Nat)
    (x : L.Path) (s0 : Streams)
    (hcur : it.mp_cur = some h) (hslot : it.mp_cur_path = some x)
    (hs : w.streams = (h, []) :: s0) :
    operator_inc_post (it, w)
      = .returned ({ it with mp_cur_path := some L.Path_default, mp_cur := none },
                   { w with streams := s0, log := w.log ++ [Event.closed h] }) := by
  simp [operator_inc_post, hcur, hslot, readdir, hs, close_native_handle, closedir, dropStream]

theorem advance_times_open {L : PathLib} (it : entry_iterator L) (w : World L) (h : Nat)
    (x : L.Path) (rem : List String) (s0 : Streams)
    (hcur : it.mp_cur = some h) (hslot : it.mp_cur_path = some x)
    (hs : w.streams = (h, rem) :: s0) (k : Nat) (hk : k < rem.length) :
    advance_times (k + 1) (it, w)
      = .returned ({ it with mp_cur_path := some (L.filename_to_utf8 rem[k]) },
                   { w with streams := (h, rem.drop (k + 1)) :: s0 }) := by
  induction k with
  | zero =>
    have hdrop : rem = rem[0] :: rem.drop 1 := by
      simpa using List.drop_eq_getElem_cons hk
    rw [advance_times, advance_times, Result.andThen]
    exact inc_post_next it w h x rem[0] (rem.drop 1) s0 hcur hslot (hdrop ▸ hs)
  | succ k ih =>
    have hk1 : k < rem.length := Nat.lt_of_succ_lt hk
    have hdrop : rem.drop (k + 1) = rem[k + 1] :: rem.drop (k + 1 + 1) :=
      List.drop_eq_getElem_cons hk
    rw [advance_times, ih hk1, Result.andThen]
    exact inc_post_next _ _ h (L.filename_to_utf8 rem[k]) rem[k + 1] (rem.drop (k + 1 + 1)) s0
      hcur rfl (congrArg (fun l => (h, l) :: s0) hdrop)


theorem opens_append (a b : List Event) : opens (a ++ b) = opens a ++ opens b := by
  induction a with
  | nil => rfl
  | cons e a ih => cases e <;> simp [opens, ih]

theorem closes_append (a b : List Event) : closes (a ++ b) = closes a ++ closes b := by
  induction a with
  | nil => rfl
  | cons e a ih => cases e <;> simp [closes, ih]

theorem staleCloses_append (a b : List Event) :
    staleCloses (a ++ b) = staleCloses a ++ staleCloses b := by
  induction a with
  | nil => rfl
  | cons e a ih => cases e <;> simp [staleCloses, ih]

theorem owns_openHandles {L : PathLib} {w0 : World L} {c : Config L} (hown : Owns w0 c) :
    openHandles c.2.streams = c.1.mp_cur.toList ++ openHandles w0.streams := by
  obtain ⟨_, hs, _⟩ := hown
  cases hcur : c.1.mp_cur with
  | none => rw [hcur] at hs; simp [hs]
  | some h =>
    rw [hcur] at hs
    obtain ⟨rem, hs⟩ := hs
    simp [hs, openHandles]

theorem owns_close {L : PathLib} {w0 : World L} {c : Config L} (hown : Owns w0 c) :
    ∃ c1, close_native_handle c = .returned c1 ∧ c1.1.mp_cur = none ∧
      c1.1.mp_directory = c.1.mp_directory ∧ Owns w0 c1 := by
  obtain ⟨hslot, hs, ev, hlog, hstale, hbal⟩ := hown
  cases hcur : c.1.mp_cur with
  | none =>
    exact ⟨c, by simp [close_native_handle, hcur], hcur, rfl, hslot, hs, ev, hlog, hstale, hbal⟩
  | some h =>
    rw [hcur] at hs hbal
    obtain ⟨rem, hs⟩ := hs
    obtain ⟨x, hx⟩ := exists_of_ne_none hslot
    refine ⟨({ c.1 with mp_cur_path := some L.Path_default, mp_cur := none }, closedir c.2 h),
      by simp [close_native_handle, hcur, hx], rfl, rfl, by simp, ?_, ?_⟩
    · simp [closedir, hs, dropStream]
    · refine ⟨ev ++ [Event.closed h], ?_, ?_, ?_⟩
      · simp [closedir, hs, hlog]
      · simp [staleCloses_append, hstale, staleCloses]
      · simp [opens_append, closes_append, opens, closes, hbal]

theorem owns_open {L : PathLib} {w0 : World L} {c c1 : Config L} (hown : Owns w0 c)
    (hcur : c.1.mp_cur = none) (hafter : (open_native_handle c).after = some c1) :
    Owns w0 c1 ∧ ((∃ e, open_native_handle c = .threw e c1) → c1.1.mp_cur = none) := by
  obtain ⟨hslot, hs, ev, hlog, hstale, hbal⟩ := hown
  rw [hcur] at hs hbal
  obtain ⟨x, hx⟩ := exists_of_ne_none hslot
  unfold open_native_handle at hafter ⊢
  cases hd : c.1.mp_directory with
  | none => simp [hd, Result.after] at hafter
  | some d =>
    cases hdisk : c.2.disk (L.native (c.2.mem d)) with
    | error code =>
      simp [hd, opendir, hdisk, Result.after] at hafter ⊢
      subst hafter
      exact ⟨⟨by simpa using hslot, by simpa using hs, ev, by simpa using hlog, hstale,
        by simpa using hbal⟩, fun _ => rfl⟩
    | ok entries =>
      cases entries with
      | nil => simp [hd, opendir, hdisk, readdir, Result.after] at hafter
      | cons e rest =>
        simp [hd, opendir, hdisk, readdir, hx, setStream, Result.after] at hafter ⊢
        subst hafter
        refine ⟨by simp, ⟨rest, by simp [hs]⟩, ev ++ [Event.opened (freshHandle c.2.streams)], ?_, ?_, ?_⟩
        · simp [hlog]
        · simp [staleCloses_append, hstale, staleCloses]
        · simp [opens_append, closes_append, opens, closes, hbal]

theorem owns_inc_post {L : PathLib} {w0 : World L} {c c1 : Config L} (hown : Owns w0 c)
    (hafter : (operator_inc_post c).after = some c1) : Owns w0 c1 := by
  cases hcur : c.1.mp_cur with
  | none =>
    simp [operator_inc_post, hcur, Result.after] at hafter
    subst hafter
    exact hown
  | some h =>
    obtain ⟨hslot, hs, ev, hlog, hstale, hbal⟩ := hown
    have hs1 := hs
    rw [hcur] at hs1
    obtain ⟨rem, hs1⟩ := hs1
    obtain ⟨x, hx⟩ := exists_of_ne_none hslot
    cases rem with
    | cons e rest =>
      rw [inc_post_next c.1 c.2 h x e rest w0.streams hcur hx hs1] at hafter
      simp [Result.after] at hafter
      subst hafter
      exact ⟨by simp, by simp [hcur], ev, by simpa using hlog, hstale, by simpa using hbal⟩
    | nil =>
      rw [inc_post_last c.1 c.2 h x w0.streams hcur hx hs1] at hafter
      simp [Result.after] at hafter
      subst hafter
      refine ⟨by simp, by simp, ev ++ [Event.closed h], by simp [hlog], ?_, ?_⟩
      · simp [staleCloses_append, hstale, staleCloses]
      · rw [hcur] at hbal
        simp [opens_append, closes_append, opens, closes, hbal]

theorem owns_assign {L : PathLib} {w0 : World L} {c c1 : Config L} (hown : Owns w0 c)
    (p : Option Nat) (hafter : (operator_assign c p).after = some c1) : Owns w0 c1 := by
  obtain ⟨c0, hclose, hnone, _, hown0⟩ := owns_close hown
  unfold operator_assign at hafter
  rw [hclose] at hafter
  have hown1 : Owns w0 ({ c0.1 with mp_directory := p }, c0.2) := by
    obtain ⟨a, b, cc⟩ := hown0
    exact ⟨a, b, cc⟩
  exact (owns_open hown1 hnone hafter).1

theorem owns_exec {L : PathLib} {w0 : World L} {c c1 : Config L} (hown : Owns w0 c)
    (op : Op) (hafter : (op.exec c).after = some c1) : Owns w0 c1 := by
  cases op with
  | advance => exact owns_inc_post hown hafter
  | rebind p => exact owns_assign hown p hafter

theorem owns_outcomes {L : PathLib} {w0 : World L} (ops : List Op) :
    ∀ c : Config L, Owns w0 c → ∀ r ∈ outcomes c ops, ∀ c1, r.after = some c1 → Owns w0 c1 := by
  induction ops with
  | nil => intro c _ r hr; simp [outcomes] at hr
  | cons op ops ih =>
    intro c hown r hr c1 hafter
    simp only [outcomes, List.mem_cons] at hr
    rcases hr with hr | hr
    · subst hr; exact owns_exec hown op hafter
    · cases hex : (op.exec c).after with
      | none => rw [hex] at hr; simp at hr
      | some c2 =>
        rw [hex] at hr
        exact ih c2 (owns_exec hown op hex) r hr c1 hafter

theorem owns_runOps {L : PathLib} {w0 : World L} (ops : List Op) :
    ∀ c c1 : Config L, Owns w0 c → runOps c ops = some c1 → Owns w0 c1 := by
  induction ops with
  | nil => intro c c1 hown h; simp [runOps] at h; subst h; exact hown
  | cons op ops ih =>
    intro c c1 hown h
    simp only [runOps] at h
    cases hex : (op.exec c).after with
    | none => rw [hex] at h; simp at h
    | some c2 =>
      rw [hex] at h
      exact ih c2 c1 (owns_exec hown op hex) h


theorem advance_times_dir {L : PathLib} (n : Nat) :
    ∀ c c1 : Config L, advance_times n c = .returned c1 →
      c1.1.mp_directory = c.1.mp_directory := by
  induction n with
  | zero =>
    intro c c1 h
    simp [advance_times] at h
    subst h
    rfl
  | succ n ih =>
    intro c c1 h
    rw [advance_times] at h
    cases hn : advance_times n c with
    | returned c2 =>
      rw [hn, Result.andThen] at h
      have h1 := inc_post_dir c2 c1 (by rw [h]; rfl)
      rw [h1, ih c c2 hn]
    | threw e s => rw [hn] at h; simp [Result.andThen] at h
    | undefined => rw [hn] at h; simp [Result.andThen] at h

theorem runOps_advance_dir {L : PathLib} (n : Nat) :
    ∀ c c1 : Config L, runOps c (List.replicate n Op.advance) = some c1 →
      c1.1.mp_directory = c.1.mp_directory := by
  induction n with
  | zero =>
    intro c c1 h
    simp [runOps] at h
    subst h
    rfl
  | succ n ih =>
    intro c c1 h
    simp only [List.replicate_succ, runOps, Op.exec] at h
    cases hex : (operator_inc_post c).after with
    | none => rw [hex] at h; simp at h
    | some c2 =>
      rw [hex] at h
      rw [ih c2 c1 h, inc_post_dir c c2 hex]

theorem bound_then_advance_dir {L : PathLib} (w w1 : World L) (p : Option Nat) (n : Nat)
    (x : entry_iterator L)
    (h : (entry_iterator.bound w p).andThen (advance_times n) = .returned (x, w1)) :
    x.mp_directory ≠ none := by
  cases hb : entry_iterator.bound w p with
  | returned c =>
    rw [hb, Result.andThen] at h
    have h1 := open_dir _ c (by rw [← entry_iterator.bound, hb]; rfl)
    have h2 := advance_times_dir n c (x, w1) h
    simp only at h2 h1
    rw [h2, h1.1]
    exact h1.2
  | threw e s => rw [hb] at h; simp [Result.andThen] at h
  | undefined => rw [hb] at h; simp [Result.andThen] at h

theorem lookup_of_mem_openHandles (h : Nat) (s : Streams) (hm : h ∈ openHandles s) :
    ∃ es, s.lookup h = some es := by
  induction s with
  | nil => simp [openHandles] at hm
  | cons a s ih =>
    obtain ⟨k, es⟩ := a
    by_cases hk : h = k
    · subst hk
      exact ⟨es, by simp [List.lookup]⟩
    · have hm1 : h ∈ openHandles s := by
        simp [openHandles] at hm ⊢
        rcases hm with hm | hm
        · exact absurd hm hk
        · exact hm
      obtain ⟨es1, he⟩ := ih hm1
      refine ⟨es1, ?_⟩
      have hne : (h == k) = false := by simpa using hk
      simp [List.lookup, hne, he]

theorem openHandles_dropStream (h : Nat) (s : Streams) :
    openHandles (dropStream h s) = (openHandles s).erase h := by
  induction s with
  | nil => rfl
  | cons a s ih =>
    obtain ⟨k, es⟩ := a
    by_cases hk : k = h
    · subst hk
      simp [dropStream, openHandles]
    · have hne : (k == h) = false := by simpa using hk
      have ih1 : List.map Prod.fst (dropStream h s) = (List.map Prod.fst s).erase h := ih
      simp [dropStream, openHandles, hk, List.erase_cons, hne, ih1]

theorem owns_bound {L : PathLib} (w0 : World L) (p : Option Nat) (c : Config L)
    (hafter : (entry_iterator.bound w0 p).after = some c) :
    Owns w0 c ∧ ((∃ e, entry_iterator.bound w0 p = .threw e c) → c.1.mp_cur = none) := by
  have hinit : Owns w0
      (({ mp_directory := p, mp_cur := none, mp_cur_path := some L.Path_default } :
        entry_iterator L), w0) :=
    ⟨by simp, rfl, [], by simp, rfl, rfl⟩
  exact owns_open hinit rfl hafter

theorem readdir_disk {L : PathLib} (w : World L) (h : Nat) : (readdir w h).2.disk = w.disk := by
  unfold readdir; split <;> rfl

theorem opendir_disk {L : PathLib} (w : World L) (name : String) :
    (opendir w name).2.disk = w.disk := by
  unfold opendir; split <;> rfl

theorem close_disk {L : PathLib} (c c1 : Config L)
    (h : (close_native_handle c).after = some c1) : c1.2.disk = c.2.disk := by
  unfold close_native_handle at h
  split at h
  · simp [Result.after] at h; subst h; rfl
  · simp only at h
    split at h
    · simp [Result.after] at h; subst h; exact closedir_disk _ _
    · simp [Result.after] at h

theorem open_disk {L : PathLib} (c c1 : Config L)
    (h : (open_native_handle c).after = some c1) : c1.2.disk = c.2.disk := by
  unfold open_native_handle at h
  split at h
  · simp [Result.after] at h
  · simp only at h
    split at h
    · split at h
      · simp [Result.after] at h
        subst h
        simp [readdir_disk, opendir_disk]
      · simp [Result.after] at h
    · simp [Result.after] at h
      subst h
      simp [opendir_disk]

theorem exec_disk {L : PathLib} (op : Op) (c c1 : Config L)
    (h : (op.exec c).after = some c1) : c1.2.disk = c.2.disk := by
  cases op with
  | advance =>
    simp only [Op.exec] at h
    unfold operator_inc_post at h
    split at h
    · simp only at h
      split at h
      · split at h
        · simp [Result.after] at h; subst h; exact readdir_disk _ _
        · simp [Result.after] at h
      · have hc := close_disk (c.1, _) c1 h
        simpa [readdir_disk] using hc
    · simp [Result.after] at h; subst h; rfl
  | rebind p =>
    simp only [Op.exec] at h
    unfold operator_assign at h
    cases hcl : close_native_handle c with
    | returned a =>
      rw [hcl] at h
      have h1 := open_disk ({ a.1 with mp_directory := p }, a.2) c1 h
      have h2 := close_disk c a (by rw [hcl]; rfl)
      simpa [h2] using h1
    | threw e s => rw [hcl] at h; simp [Result.after] at h; subst h; exact close_disk c _ (by rw [hcl]; rfl)
    | undefined => rw [hcl] at h; simp [Result.after] at h

theorem open_defined {L : PathLib} {w0 : World L} {c : Config L} (hown : Owns w0 c)
    (hdisk : ListsSomething c.2) (hdir : c.1.mp_directory ≠ none) :
    ∃ c1, (open_native_handle c).after = some c1 := by
  obtain ⟨hslot, _⟩ := hown
  obtain ⟨x, hx⟩ := exists_of_ne_none hslot
  obtain ⟨d, hd⟩ := exists_of_ne_none hdir
  cases hop : c.2.disk (L.native (c.2.mem d)) with
  | error code =>
    rw [open_fails c.1 c.2 d code hd hop]
    exact ⟨_, rfl⟩
  | ok es =>
    cases es with
    | nil => exact absurd rfl (hdisk _ _ hop)
    | cons f1 rest =>
      rw [open_succeeds c.1 c.2 d x f1 rest hd hx hop]
      exact ⟨_, rfl⟩

theorem exec_defined {L : PathLib} {w0 : World L} {c : Config L} (hown : Owns w0 c)
    (hdisk : ListsSomething c.2) (op : Op) (hop : ∀ q, op = Op.rebind q → q ≠ none) :
    ∃ c1, (op.exec c).after = some c1 := by
  cases op with
  | advance =>
    simp only [Op.exec]
    cases hcur : c.1.mp_cur with
    | none => rw [inc_post_finished c hcur]; exact ⟨_, rfl⟩
    | some h =>
      obtain ⟨hslot, hs, _⟩ := hown
      rw [hcur] at hs
      obtain ⟨rem, hs⟩ := hs
      obtain ⟨x, hx⟩ := exists_of_ne_none hslot
      cases rem with
      | cons e rest =>
        rw [inc_post_next c.1 c.2 h x e rest w0.streams hcur hx hs]; exact ⟨_, rfl⟩
      | nil =>
        rw [inc_post_last c.1 c.2 h x w0.streams hcur hx hs]; exact ⟨_, rfl⟩
  | rebind q =>
    simp only [Op.exec]
    obtain ⟨c0, hclose, hnone, _, hown0⟩ := owns_close hown
    have hd0 : c0.2.disk = c.2.disk := close_disk c c0 (by rw [hclose]; rfl)
    unfold operator_assign
    rw [hclose]
    have hown1 : Owns w0 ({ c0.1 with mp_directory := q }, c0.2) := by
      obtain ⟨a, b, cc⟩ := hown0
      exact ⟨a, b, cc⟩
    exact open_defined hown1 (by intro name es h; exact hdisk name es (by rw [← hd0]; exact h))
      (hop q rfl)

theorem runOps_defined {L : PathLib} {w0 : World L} (ops : List Op) :
    ∀ c : Config L, Owns w0 c → ListsSomething c.2 →
      (∀ q, Op.rebind q ∈ ops → q ≠ none) → ∃ c1, runOps c ops = some c1 := by
  induction ops with
  | nil => intro c _ _ _; exact ⟨c, rfl⟩
  | cons op ops ih =>
    intro c hown hdisk hops
    obtain ⟨c1, hc1⟩ := exec_defined hown hdisk op
      (by intro q hq; exact hops q (by simp [hq]))
    have hd1 := exec_disk op c c1 hc1
    obtain ⟨c2, hc2⟩ := ih c1 (owns_exec hown op hc1)
      (by intro name es h; exact hdisk name es (by rw [← hd1]; exact h))
      (by intro q hq; exact hops q (List.mem_cons_of_mem _ hq))
    exact ⟨c2, by simp [runOps, hc1, hc2]⟩

theorem lifetime_defined {L : PathLib} (w0 : World L) (p : Option Nat) (ops : List Op)
    (hdisk : ListsSomething w0) (hp : p ≠ none) (hops : ∀ q, Op.rebind q ∈ ops → q ≠ none) :
    ∃ wf, lifetime w0 p ops = some wf := by
  have hinit : Owns w0
      (({ mp_directory := p, mp_cur := none, mp_cur_path := some L.Path_default } :
        entry_iterator L), w0) :=
    ⟨by simp, rfl, [], by simp, rfl, rfl⟩
  obtain ⟨c, hc⟩ := open_defined hinit hdisk hp
  unfold lifetime
  cases hb : entry_iterator.bound w0 p with
  | returned c0 =>
    have hown0 := (owns_bound w0 p c0 (by rw [hb]; rfl)).1
    have hd0 : c0.2.disk = w0.disk := open_disk _ c0 (by rw [← entry_iterator.bound, hb]; rfl)
    obtain ⟨c1, hc1⟩ := runOps_defined ops c0 hown0
      (by intro name es h; exact hdisk name es (by rw [← hd0]; exact h)) hops
    obtain ⟨c2, hclose, _⟩ := owns_close (owns_runOps ops c0 c1 hown0 hc1)
    exact ⟨c2.2, by simp [hc1, entry_iterator.destroy, hclose, Result.after]⟩
  | threw e s => exact ⟨s.2, rfl⟩
  | undefined =>
    rw [entry_iterator.bound] at hb
    rw [hb] at hc
    simp [Result.after] at hc

theorem tmp_x_lists : ListsSomething tmp_x := by
  intro name es h
  unfold tmp_x at h
  simp only at h
  split at h
  · cases h; simp
  · cases h

theorem bound_then_advance_states (L : PathLib) (w : World L) (d : Nat)
    (es : List String) (hopen : w.disk (L.native (w.mem d)) = .ok es) (hne : es ≠ []) :
    (∀ (k : Nat) (hk : k < es.length),
      (entry_iterator.bound w (some d)).andThen (advance_times k)
        = .returned
            ({ mp_directory := some d, mp_cur := some (freshHandle w.streams),
               mp_cur_path := some (L.filename_to_utf8 es[k]) },
             { w with streams := (freshHandle w.streams, es.drop (k + 1)) :: w.streams,
                      log := w.log ++ [Event.opened (freshHandle w.streams)] })) ∧
    (entry_iterator.bound w (some d)).andThen (advance_times es.length)
      = .returned
          ({ mp_directory := some d, mp_cur := none, mp_cur_path := some L.Path_default },
           { w with log := w.log ++ [Event.opened (freshHandle w.streams),
                                     Event.closed (freshHandle w.streams)] }) := by
  cases es with
  | nil => exact absurd rfl hne
  | cons f1 rest =>
    have hb := open_succeeds
      ({ mp_directory := some d, mp_cur := none, mp_cur_path := some L.Path_default } :
        entry_iterator L) w d L.Path_default f1 rest rfl rfl hopen
    rw [← entry_iterator.bound] at hb
    constructor
    · intro k hk
      rw [hb, Result.andThen]
      cases k with
      | zero => rfl
      | succ j =>
        have hj : j < rest.length := by simpa using hk
        rw [advance_times_open _ _ (freshHandle w.streams) (L.filename_to_utf8 f1) rest
          w.streams rfl rfl rfl j hj]
        simp
    · rw [hb, Result.andThen]
      have hlast : ∃ y : L.Path, advance_times rest.length
          (({ mp_directory := some d, mp_cur := some (freshHandle w.streams),
              mp_cur_path := some (L.filename_to_utf8 f1) } : entry_iterator L),
           { w with streams := (freshHandle w.streams, rest) :: w.streams,
                    log := w.log ++ [Event.opened (freshHandle w.streams)] })
          = .returned
            ({ mp_directory := some d, mp_cur := some (freshHandle w.streams),
               mp_cur_path := some y },
             { w with streams := (freshHandle w.streams, []) :: w.streams,
                      log := w.log ++ [Event.opened (freshHandle w.streams)] }) := by
        cases hlen : rest.length with
        | zero =>
          have hnil : rest = [] := List.length_eq_zero.mp hlen
          subst hnil
          exact ⟨_, rfl⟩
        | succ j =>
          have hj : j < rest.length := by omega
          refine ⟨L.filename_to_utf8 rest[j], ?_⟩
          rw [advance_times_open _ _ (freshHandle w.streams) (L.filename_to_utf8 f1) rest
            w.streams rfl rfl rfl j hj]
          have hd : rest.drop (j + 1) = [] := List.drop_eq_nil_of_le (by omega)
          simp [hd]
      obtain ⟨y, hy⟩ := hlast
      show (advance_times rest.length _).andThen operator_inc_post = _
      rw [hy, Result.andThen]
      rw [inc_post_last _ _ (freshHandle w.streams) y w.streams rfl rfl rfl]
      simp

/-! ## The claims -/

/-- C1: the code does the opposite of the claim.  Compared with an iterator whose
directory reference is null, `operator==` returns whether the handle of the left
operand is NOT null, and `operator!=` whether it is null; so the default-constructed
iterator is unequal to the default-constructed iterator. -/
theorem C1_operator_eq_terminal_is_handle_open (L : PathLib) (it : entry_iterator L)
    (cur : Option Nat) (slot : Option L.Path) :
    operator_eq it { mp_directory := none, mp_cur := cur, mp_cur_path := slot }
        = it.mp_cur.isSome ∧
      operator_ne it { mp_directory := none, mp_cur := cur, mp_cur_path := slot }
        = it.mp_cur.isNone ∧
      operator_eq (entry_iterator.terminal L) (entry_iterator.terminal L) = false := by
  refine ⟨operator_eq_null_dir it cur slot, ?_, ?_⟩
  · rw [operator_ne, operator_eq_null_dir]
    cases it.mp_cur <;> rfl
  · exact operator_eq_null_dir _ _ _

/-- C2: when `D` opens with the names `es` (at least one), the constructor followed
by `k < es.length` postfix advances returns with the handle open (it is in the table
of open streams) and `operator*` yields `filename_to_utf8 es[k]`; followed by
`es.length` advances it returns with the handle null, the stream closed and the
current entry, as `operator*` yields it, reset to `Path()`. -/
theorem C2_visits_entries_then_exhausts (L : PathLib) (w : World L) (d : Nat)
    (es : List String) (hopen : w.disk (L.native (w.mem d)) = .ok es) (hne : es ≠ []) :
    (∀ (k : Nat) (hk : k < es.length),
      (entry_iterator.bound w (some d)).andThen (advance_times k)
        = .returned
            ({ mp_directory := some d, mp_cur := some (freshHandle w.streams),
               mp_cur_path := some (L.filename_to_utf8 es[k]) },
             { w with streams := (freshHandle w.streams, es.drop (k + 1)) :: w.streams,
                      log := w.log ++ [Event.opened (freshHandle w.streams)] }) ∧
      ∃ c, (entry_iterator.bound w (some d)).andThen (advance_times k) = .returned c ∧
        c.1.mp_cur = some (freshHandle w.streams) ∧
        freshHandle w.streams ∈ openHandles c.2.streams ∧
        operator_deref c.1 = some (L.filename_to_utf8 es[k])) ∧
    (entry_iterator.bound w (some d)).andThen (advance_times es.length)
      = .returned
          ({ mp_directory := some d, mp_cur := none, mp_cur_path := some L.Path_default },
           { w with log := w.log ++ [Event.opened (freshHandle w.streams),
                                     Event.closed (freshHandle w.streams)] }) ∧
    ∃ c, (entry_iterator.bound w (some d)).andThen (advance_times es.length) = .returned c ∧
      c.1.mp_cur = none ∧
      openHandles c.2.streams = openHandles w.streams ∧
      operator_deref c.1 = some L.Path_default := by
  have h := bound_then_advance_states L w d es hopen hne
  refine ⟨fun k hk => ⟨h.1 k hk, _, h.1 k hk, rfl, ?_, rfl⟩, h.2, _, h.2, rfl, rfl, rfl⟩
  simp [openHandles]

/-- C2 at `/tmp/x` holding `.`, `..`, `a.txt`: after two advances `operator*` yields
`a.txt`, after three the iterator is exhausted. -/
theorem C2_visits_entries_then_exhausts_witness :
    tmp_x.disk (utf8Paths.native (tmp_x.mem 1)) = .ok [".", "..", "a.txt"] ∧
    ((entry_iterator.bound tmp_x (some 1)).andThen (advance_times 2)
      = .returned
          ({ mp_directory := some 1, mp_cur := some 1, mp_cur_path := some "a.txt" },
           { tmp_x with streams := [(1, [])], log := [Event.opened 1] })) ∧
    (∃ c, (entry_iterator.bound tmp_x (some 1)).andThen (advance_times 2) = .returned c ∧
      c.1.mp_cur = some 1 ∧ 1 ∈ openHandles c.2.streams ∧
      operator_deref c.1 = some "a.txt") ∧
    ((entry_iterator.bound tmp_x (some 1)).andThen (advance_times 3)
      = .returned
          ({ mp_directory := some 1, mp_cur := none, mp_cur_path := some "" },
           { tmp_x with log := [Event.opened 1, Event.closed 1] })) ∧
    (∃ c, (entry_iterator.bound tmp_x (some 1)).andThen (advance_times 3) = .returned c ∧
      c.1.mp_cur = none ∧ openHandles c.2.streams = openHandles tmp_x.streams ∧
      operator_deref c.1 = some "") :=
  ⟨rfl,
   ((C2_visits_entries_then_exhausts utf8Paths tmp_x 1 [".", "..", "a.txt"] rfl
      (by simp)).1 2 (by decide)).1,
   ((C2_visits_entries_then_exhausts utf8Paths tmp_x 1 [".", "..", "a.txt"] rfl
      (by simp)).1 2 (by decide)).2,
   (C2_visits_entries_then_exhausts utf8Paths tmp_x 1 [".", "..", "a.txt"] rfl
      (by simp)).2.1,
   (C2_visits_entries_then_exhausts utf8Paths tmp_x 1 [".", "..", "a.txt"] rfl
      (by simp)).2.2⟩

/-- C3, counterexample: with `x` bound to `/tmp/x` (`.`, `..`, `a.txt`) and advanced
three times, and `d` default-constructed, `d == x` returns false, so the three
comparisons of the claim are not all true. -/
theorem C3_counterexample :
    (entry_iterator.bound tmp_x (some 1)).andThen (advance_times 3)
        = .returned (exhausted_tmp_x, { tmp_x with log := [Event.opened 1, Event.closed 1] }) ∧
      operator_eq (entry_iterator.terminal utf8Paths) exhausted_tmp_x = false ∧
      ¬ (operator_eq (entry_iterator.terminal utf8Paths) (entry_iterator.terminal utf8Paths)
            = true ∧
          operator_eq (entry_iterator.terminal utf8Paths) exhausted_tmp_x = true ∧
          operator_eq exhausted_tmp_x (entry_iterator.terminal utf8Paths) = true) := by
  refine ⟨rfl, rfl, ?_⟩
  intro h
  exact absurd h.2.1 (by decide)


/-- C3, amended: for a default-constructed `d` and an iterator `x` that was bound to a
directory and advanced any number of times, in particular until its listing was
exhausted, `d == x` returns false: the directory reference of `x` is set, so the
comparison is by identity of directory reference and handle, and the directory
reference of `d` is null. -/
theorem C3_terminal_eq_exhausted_is_false (L : PathLib) (w w1 : World L) (p : Option Nat)
    (n : Nat) (x : entry_iterator L)
    (hx : (entry_iterator.bound w p).andThen (advance_times n) = .returned (x, w1)) :
    operator_eq (entry_iterator.terminal L) x = false := by
  have hdir := bound_then_advance_dir w w1 p n x hx
  obtain ⟨d, hd⟩ := exists_of_ne_none hdir
  simp [operator_eq, hd, entry_iterator.terminal]


/-- C3 amended, at `/tmp/x` after three advances. -/
theorem C3_terminal_eq_exhausted_is_false_witness :
    operator_eq (entry_iterator.terminal utf8Paths) exhausted_tmp_x = false :=
  C3_terminal_eq_exhausted_is_false utf8Paths tmp_x
    { tmp_x with log := [Event.opened 1, Event.closed 1] } (some 1) 3 exhausted_tmp_x rfl


/-- C4: with a null handle the postfix advance throws `std::range_error` and the state
at the throw is the state before the call; `n` attempts in a row all do so. -/
theorem C4_advance_finished_throws (L : PathLib) (c : Config L) (h : c.1.mp_cur = none)
    (n : Nat) :
    operator_inc_post c
        = .threw (Thrown.range_error "Tried to advance a finished entry_iterator!") c ∧
      outcomes c (List.replicate n Op.advance)
        = List.replicate n
            (.threw (Thrown.range_error "Tried to advance a finished entry_iterator!") c) :=
  ⟨inc_post_finished c h, outcomes_finished c h n⟩


/-- C4 at the default-constructed iterator, three attempts. -/
theorem C4_advance_finished_throws_witness :
    operator_inc_post (entry_iterator.terminal utf8Paths, tmp_x)
        = .threw (Thrown.range_error "Tried to advance a finished entry_iterator!")
            (entry_iterator.terminal utf8Paths, tmp_x) ∧
      outcomes (entry_iterator.terminal utf8Paths, tmp_x) (List.replicate 3 Op.advance)
        = List.replicate 3
            (.threw (Thrown.range_error "Tried to advance a finished entry_iterator!")
              (entry_iterator.terminal utf8Paths, tmp_x)) :=
  C4_advance_finished_throws utf8Paths (entry_iterator.terminal utf8Paths, tmp_x) rfl 3


/-- C5: when `opendir` fails on `D` with code `code`, the constructor throws
`ErrnoError(code)` with a null handle, and so does `operator=` on an iterator whose
slot is allocated; in both cases the destructor then returns without a native call. -/
theorem C5_open_failure_throws_errno (L : PathLib) (w : World L) (d code : Nat)
    (it : entry_iterator L) (hfail : w.disk (L.native (w.mem d)) = .error code)
    (hslot : it.mp_cur_path ≠ none) :
    (∃ c1, entry_iterator.bound w (some d) = .threw (Thrown.ErrnoError code) c1 ∧
        c1.1.mp_cur = none ∧ c1.2.log = w.log ∧ entry_iterator.destroy c1 = .returned c1) ∧
    (∃ c1, operator_assign (it, w) (some d) = .threw (Thrown.ErrnoError code) c1 ∧
        c1.1.mp_cur = none ∧ c1.2.log = (worldAfterClose it w).log ∧
        entry_iterator.destroy c1 = .returned c1) := by
  constructor
  · refine ⟨_, open_fails _ w d code rfl hfail, rfl, rfl, ?_⟩
    simp [entry_iterator.destroy, close_native_handle]
  · obtain ⟨x, hx⟩ := exists_of_ne_none hslot
    cases hcur : it.mp_cur with
    | none =>
      have hclose : close_native_handle (it, w) = .returned (it, w) := by
        simp [close_native_handle, hcur]
      refine ⟨({ it with mp_directory := some d, mp_cur := none }, { w with errno := code }),
        ?_, ?_, ?_, ?_⟩
      · rw [operator_assign, hclose]
        exact open_fails _ w d code rfl hfail
      · rfl
      · simp [worldAfterClose, hcur]
      · simp [entry_iterator.destroy, close_native_handle]
    | some h =>
      have hclose : close_native_handle (it, w)
          = .returned ({ it with mp_cur_path := some L.Path_default, mp_cur := none },
              closedir w h) := by
        simp [close_native_handle, hcur, hx]
      have hfail1 : (closedir w h).disk (L.native ((closedir w h).mem d)) = .error code := by
        rw [closedir_disk, closedir_mem]; exact hfail
      refine ⟨({ mp_directory := some d, mp_cur := none, mp_cur_path := some L.Path_default },
        { closedir w h with errno := code }), ?_, ?_, ?_, ?_⟩
      · rw [operator_assign, hclose]
        exact open_fails _ (closedir w h) d code rfl hfail1
      · rfl
      · simp [worldAfterClose, hcur]
      · simp [entry_iterator.destroy, close_native_handle]


/-- C5 at the missing directory `/nonexistent`, while an iterator is open on `/tmp/x`. -/
theorem C5_open_failure_throws_errno_witness :
    bound_tmp_x.2.disk (utf8Paths.native (bound_tmp_x.2.mem 2)) = .error ENOENT ∧
    bound_tmp_x.1.mp_cur_path ≠ none ∧
    ((∃ c1, entry_iterator.bound bound_tmp_x.2 (some 2) = .threw (Thrown.ErrnoError ENOENT) c1 ∧
        c1.1.mp_cur = none ∧ c1.2.log = bound_tmp_x.2.log ∧
        entry_iterator.destroy c1 = .returned c1) ∧
     (∃ c1, operator_assign (bound_tmp_x.1, bound_tmp_x.2) (some 2)
          = .threw (Thrown.ErrnoError ENOENT) c1 ∧
        c1.1.mp_cur = none ∧
        c1.2.log = (worldAfterClose bound_tmp_x.1 bound_tmp_x.2).log ∧
        entry_iterator.destroy c1 = .returned c1)) :=
  ⟨rfl, by simp [bound_tmp_x],
    C5_open_failure_throws_errno utf8Paths bound_tmp_x.2 2 ENOENT bound_tmp_x.1 rfl
      (by simp [bound_tmp_x])⟩


/-- C6: `operator bool` is true exactly when the directory reference is set; it is
false for the default-constructed iterator, true after a constructor or an
`operator=` that returns, unchanged by a postfix advance (returning or throwing),
and so still true after any `n` advances. -/
theorem C6_operator_bool_is_directory_set (L : PathLib) (w : World L) (p : Option Nat)
    (c c1 : Config L) (n : Nat)
    (hbind : entry_iterator.bound w p = .returned c)
    (hadv : runOps c (List.replicate n Op.advance) = some c1) :
    (∀ it : entry_iterator L, operator_bool it = true ↔ it.mp_directory ≠ none) ∧
    operator_bool (entry_iterator.terminal L) = false ∧
    (∀ (a b : Config L) (q : Option Nat),
      operator_assign a q = .returned b → operator_bool b.1 = true) ∧
    (∀ a b : Config L,
      (operator_inc_post a).after = some b → operator_bool b.1 = operator_bool a.1) ∧
    operator_bool c.1 = true ∧
    operator_bool c1.1 = true := by
  have hc : c.1.mp_directory ≠ none := by
    have h := open_dir _ c (by rw [← entry_iterator.bound, hbind]; rfl)
    rw [h.1]; exact h.2
  have hbool : ∀ it : entry_iterator L, operator_bool it = true ↔ it.mp_directory ≠ none := by
    intro it
    simp [operator_bool, Option.isSome_iff_ne_none]
  refine ⟨hbool, rfl, ?_, ?_, (hbool _).mpr hc, ?_⟩
  · intro a b q hq
    unfold operator_assign at hq
    cases hcl : close_native_handle a with
    | returned a1 =>
      rw [hcl] at hq
      have hq1 : open_native_handle ({ a1.1 with mp_directory := q }, a1.2) = .returned b := hq
      have h := open_dir _ b (by rw [hq1]; rfl)
      exact (hbool _).mpr (by rw [h.1]; exact h.2)
    | threw e s => rw [hcl] at hq; simp at hq
    | undefined => rw [hcl] at hq; simp at hq
  · intro a b hab
    simp [operator_bool, inc_post_dir a b hab]
  · exact (hbool _).mpr (by rw [runOps_advance_dir n c c1 hadv]; exact hc)


/-- C6 at `/tmp/x`: after the three advances that exhaust the listing (handle null)
and a fourth that throws, the conversion is still true. -/
theorem C6_operator_bool_is_directory_set_witness :
    entry_iterator.bound tmp_x (some 1) = .returned bound_tmp_x ∧
    runOps bound_tmp_x (List.replicate 4 Op.advance)
      = some (exhausted_tmp_x, { tmp_x with log := [Event.opened 1, Event.closed 1] }) ∧
    exhausted_tmp_x.mp_cur = none ∧
    operator_bool bound_tmp_x.1 = true ∧
    operator_bool exhausted_tmp_x = true :=
  ⟨rfl, rfl, rfl,
    (C6_operator_bool_is_directory_set utf8Paths tmp_x (some 1) bound_tmp_x
      (exhausted_tmp_x, { tmp_x with log := [Event.opened 1, Event.closed 1] }) 4
      rfl rfl).2.2.2.2⟩


/-- C7: `operator=` on an iterator whose slot is allocated, for a directory `D2` that
opens with first entry `f1`: the handle held, if any, is passed to `closedir` (one
open stream with that handle leaves the table); then the directory reference is
`D2`, the handle is the one `opendir` returns, the slot holds `filename_to_utf8 f1`:
the outcome of the constructor for `D2` run in the world after that close. -/
theorem C7_rebind_is_fresh_bind (L : PathLib) (it : entry_iterator L) (w : World L)
    (d2 : Nat) (f1 : String) (rest : List String)
    (hslot : it.mp_cur_path ≠ none)
    (hopen : w.disk (L.native (w.mem d2)) = .ok (f1 :: rest)) :
    operator_assign (it, w) (some d2)
      = .returned
          ({ mp_directory := some d2,
             mp_cur := some (freshHandle (worldAfterClose it w).streams),
             mp_cur_path := some (L.filename_to_utf8 f1) },
           { worldAfterClose it w with
             streams := (freshHandle (worldAfterClose it w).streams, rest)
                          :: (worldAfterClose it w).streams,
             log := (worldAfterClose it w).log
                      ++ [Event.opened (freshHandle (worldAfterClose it w).streams)] }) ∧
    operator_assign (it, w) (some d2)
      = entry_iterator.bound (worldAfterClose it w) (some d2) ∧
    (∀ h1, it.mp_cur = some h1 → h1 ∈ openHandles w.streams →
      (worldAfterClose it w).log = w.log ++ [Event.closed h1] ∧
      openHandles (worldAfterClose it w).streams = (openHandles w.streams).erase h1) ∧
    (it.mp_cur = none → worldAfterClose it w = w) := by
  obtain ⟨x, hx⟩ := exists_of_ne_none hslot
  have hopen1 : (worldAfterClose it w).disk (L.native ((worldAfterClose it w).mem d2))
      = .ok (f1 :: rest) := by
    unfold worldAfterClose
    cases it.mp_cur with
    | none => exact hopen
    | some h => simp only; rw [closedir_disk, closedir_mem]; exact hopen
  have hclose : ∃ y, close_native_handle (it, w)
      = .returned ({ it with mp_cur := none, mp_cur_path := some y }, worldAfterClose it w) := by
    cases hcur : it.mp_cur with
    | none =>
      refine ⟨x, ?_⟩
      cases it
      simp_all [close_native_handle, worldAfterClose]
    | some h =>
      exact ⟨L.Path_default, by simp [close_native_handle, hcur, hx, worldAfterClose]⟩
  obtain ⟨y, hy⟩ := hclose
  have hassign := open_succeeds
    ({ mp_directory := some d2, mp_cur := none, mp_cur_path := some y } : entry_iterator L)
    (worldAfterClose it w) d2 y f1 rest rfl rfl hopen1
  have hbound := open_succeeds
    ({ mp_directory := some d2, mp_cur := none, mp_cur_path := some L.Path_default } :
      entry_iterator L)
    (worldAfterClose it w) d2 L.Path_default f1 rest rfl rfl hopen1
  have h1 : operator_assign (it, w) (some d2)
      = open_native_handle
          ({ mp_directory := some d2, mp_cur := none, mp_cur_path := some y },
            worldAfterClose it w) := by
    rw [operator_assign, hy]
  rw [hassign] at h1
  refine ⟨h1, ?_, ?_, ?_⟩
  · rw [h1, entry_iterator.bound, hbound]
  · intro h hcur hmem
    obtain ⟨es, hes⟩ := lookup_of_mem_openHandles h w.streams hmem
    simp [worldAfterClose, hcur, closedir, hes, openHandles_dropStream]
  · intro hcur
    simp [worldAfterClose, hcur]


/-- C7 at an iterator open on `/tmp/x`, rebound to `/tmp/x`. -/
theorem C7_rebind_is_fresh_bind_witness :
    bound_tmp_x.1.mp_cur_path ≠ none ∧
    bound_tmp_x.2.disk (utf8Paths.native (bound_tmp_x.2.mem 1)) = .ok ("." :: ["..", "a.txt"]) ∧
    operator_assign (bound_tmp_x.1, bound_tmp_x.2) (some 1)
      = .returned
          ({ mp_directory := some 1, mp_cur := some 1, mp_cur_path := some "." },
           { tmp_x with streams := [(1, ["..", "a.txt"])],
                        log := [Event.opened 1, Event.closed 1, Event.opened 1] }) :=
  ⟨by simp [bound_tmp_x], rfl,
    (C7_rebind_is_fresh_bind utf8Paths bound_tmp_x.1 bound_tmp_x.2 1 "." ["..", "a.txt"]
      (by simp [bound_tmp_x]) rfl).1⟩


/-- C8: the code does not do what the claim says.  `operator++()` calls itself, so
whatever the fuel it has not returned: it never yields the outcome of the postfix
`operator++(int)` on the same state. -/
theorem C8_pre_increment_never_returns (L : PathLib) (fuel : Nat) (c : Config L) :
    operator_inc_pre fuel c = none ∧
      operator_inc_pre fuel c ≠ some (operator_inc_post c) := by
  have h : operator_inc_pre fuel c = none := by
    induction fuel with
    | zero => rfl
    | succ n ih => simpa [operator_inc_pre] using ih
  exact ⟨h, by simp [h]⟩


/-- C9: from any world `w0`, after the constructor and after every later call that
returns or throws, `Owns` holds: the open streams are those of `w0` plus the handle
held, no `closedir` was issued on a handle that is not open, and the handles opened
are the handles closed followed by the handle held.  When the life of the iterator
ends, the open streams are those of `w0` and the handles closed are the handles
opened, in the same order.  It does end when every directory that opens lists at
least one name and no directory pointer passed in is null. -/
theorem C9_handle_owned_and_released (L : PathLib) (w0 : World L) (p : Option Nat)
    (ops : List Op) :
    (∀ r ∈ trace w0 p ops, ∀ c, r.after = some c →
      Owns w0 c ∧
      openHandles c.2.streams = c.1.mp_cur.toList ++ openHandles w0.streams) ∧
    (∀ wf, lifetime w0 p ops = some wf →
      wf.streams = w0.streams ∧
      ∃ ev, wf.log = w0.log ++ ev ∧ staleCloses ev = [] ∧ closes ev = opens ev) ∧
    (ListsSomething w0 → p ≠ none → (∀ q, Op.rebind q ∈ ops → q ≠ none) →
      ∃ wf, lifetime w0 p ops = some wf) := by
  have hfinal : ∀ c : Config L, Owns w0 c → c.1.mp_cur = none →
      c.2.streams = w0.streams ∧
      ∃ ev, c.2.log = w0.log ++ ev ∧ staleCloses ev = [] ∧ closes ev = opens ev := by
    intro c hown hcur
    obtain ⟨_, hs, ev, hlog, hstale, hbal⟩ := hown
    rw [hcur] at hs hbal
    exact ⟨hs, ev, hlog, hstale, by simpa using hbal.symm⟩
  refine ⟨?_, ?_, lifetime_defined w0 p ops⟩
  · intro r hr c hafter
    have hown : Owns w0 c := by
      simp only [trace, List.mem_cons] at hr
      rcases hr with hr | hr
      · subst hr
        exact (owns_bound w0 p c hafter).1
      · cases hb : entry_iterator.bound w0 p with
        | returned c0 =>
          rw [hb] at hr
          exact owns_outcomes ops c0 (owns_bound w0 p c0 (by rw [hb]; rfl)).1 r hr c hafter
        | threw e s => rw [hb] at hr; simp at hr
        | undefined => rw [hb] at hr; simp at hr
    exact ⟨hown, owns_openHandles hown⟩
  · intro wf hwf
    unfold lifetime at hwf
    cases hb : entry_iterator.bound w0 p with
    | returned c0 =>
      rw [hb] at hwf
      simp only at hwf
      have hown0 := (owns_bound w0 p c0 (by rw [hb]; rfl)).1
      cases hrun : runOps c0 ops with
      | none => rw [hrun] at hwf; simp at hwf
      | some c1 =>
        rw [hrun] at hwf
        obtain ⟨c2, hclose, hnone, _, hown2⟩ := owns_close (owns_runOps ops c0 c1 hown0 hrun)
        simp [entry_iterator.destroy, hclose, Result.after] at hwf
        subst hwf
        exact hfinal c2 hown2 hnone
    | threw e s =>
      rw [hb] at hwf
      simp at hwf
      subst hwf
      have h := owns_bound w0 p s (by rw [hb]; rfl)
      exact hfinal s h.1 (h.2 ⟨e, hb⟩)
    | undefined => rw [hb] at hwf; simp at hwf


/-- C9 on `/tmp/x`: three advances, the advance that exhausts the listing, an advance
that throws, a rebind that fails, a rebind that succeeds, one more advance, and the
destructor. -/
theorem C9_handle_owned_and_released_witness :
    lifetime tmp_x (some 1)
        [Op.advance, Op.advance, Op.advance, Op.advance, Op.rebind (some 2),
         Op.rebind (some 1), Op.advance]
      = some { tmp_x with
               errno := ENOENT
               log := [Event.opened 1, Event.closed 1, Event.opened 1, Event.closed 1] } ∧
    (∃ ev, [Event.opened 1, Event.closed 1, Event.opened 1, Event.closed 1] = tmp_x.log ++ ev ∧
      staleCloses ev = [] ∧ closes ev = opens ev) ∧
    ListsSomething tmp_x ∧
    (∃ wf, lifetime tmp_x (some 1)
        [Op.advance, Op.advance, Op.advance, Op.advance, Op.rebind (some 2),
         Op.rebind (some 1), Op.advance] = some wf) :=
  ⟨rfl,
    ((C9_handle_owned_and_released utf8Paths tmp_x (some 1)
      [Op.advance, Op.advance, Op.advance, Op.advance, Op.rebind (some 2),
       Op.rebind (some 1), Op.advance]).2.1 _ rfl).2,
    tmp_x_lists,
    (C9_handle_owned_and_released utf8Paths tmp_x (some 1)
      [Op.advance, Op.advance, Op.advance, Op.advance, Op.rebind (some 2),
       Op.rebind (some 1), Op.advance]).2.2 tmp_x_lists (by simp) (by simp)⟩

/-- C10: the code does not do what the claim says.  `operator=` on the
default-constructed iterator, for a directory that opens with a first entry, stores
through the null `mp_cur_path`. -/
theorem C10_rebind_terminal_stores_through_null (L : PathLib) (w : World L) (d : Nat)
    (f1 : String) (rest : List String)
    (hopen : w.disk (L.native (w.mem d)) = .ok (f1 :: rest)) :
    operator_assign (entry_iterator.terminal L, w) (some d) = .undefined := by
  simp [operator_assign, close_native_handle, entry_iterator.terminal, open_native_handle,
    opendir, hopen, readdir]


/-- C10 at `/tmp/x`. -/
theorem C10_rebind_terminal_stores_through_null_witness :
    tmp_x.disk (utf8Paths.native (tmp_x.mem 1)) = .ok ("." :: ["..", "a.txt"]) ∧
    operator_assign (entry_iterator.terminal utf8Paths, tmp_x) (some 1) = .undefined :=
  ⟨rfl, C10_rebind_terminal_stores_through_null utf8Paths tmp_x 1 "." ["..", "a.txt"] rfl⟩


end Pathie
